import Mathlib

/-!
Verification of the work-stealing thread pool
(`src/core/thread_safe_deque.hpp`, `src/core/thread_pool.hpp`).

The C++ code is embedded shallowly: the mutable state of a
`ThreadSafeDeque<T>` becomes a structure; each member function becomes a
pure state transformer.  Every member function of the deque runs entirely
under the single mutex `mut_`, so a concurrent history of deque operations
is equivalent to some serial sequence of these transformers (linearized at
the lock); blocking waits are modelled by explicit predicates describing
the condition-variable wait predicate, and the transformer models the body
that runs once the wait has resolved.
-/

/-- Shallow embedding of `ThreadSafeDeque<T>` (thread_safe_deque.hpp).
`deque_` holds the stored elements, head = front (steal side, index 0),
last = back (owner LIFO side); `max_size_` is the capacity fixed at
construction; `done_` is the closed flag. The mutex and the two condition
variables are synchronization devices with no abstract-state content. -/
structure ThreadSafeDeque (α : Type) where
  deque_ : List α
  max_size_ : Nat
  done_ : Bool
  deriving Repr, DecidableEq

namespace ThreadSafeDeque

/-- `ThreadSafeDeque(size_t max_size = 50)`: empty, open deque. -/
def mkDeque (α : Type) (max_size : Nat := 50) : ThreadSafeDeque α :=
  { deque_ := [], max_size_ := max_size, done_ := false }

/-- The wait predicate of `push`:
`cv_not_full_.wait(lock, [this]{ return done_ || deque_.size() < max_size_; })`.
`push` is blocked exactly while this is false. -/
def pushWaitResolved (d : ThreadSafeDeque α) : Prop :=
  d.done_ = true ∨ d.deque_.length < d.max_size_

instance (d : ThreadSafeDeque α) : Decidable (pushWaitResolved d) := by
  unfold pushWaitResolved; infer_instance

/-- Body of `push` after its wait resolves: if `done_`, return without
storing; otherwise `deque_.push_back` (append at the back). -/
def push (value : α) (d : ThreadSafeDeque α) : ThreadSafeDeque α :=
  if d.done_ then d
  else { d with deque_ := d.deque_ ++ [value] }

/-- `try_pop`: non-blocking; if empty return false (`none`), otherwise
remove and return the back element (owner LIFO pop). -/
def try_pop (d : ThreadSafeDeque α) : Option α × ThreadSafeDeque α :=
  match d.deque_.getLast? with
  | none => (none, d)
  | some x => (some x, { d with deque_ := d.deque_.dropLast })

/-- `try_steal`: non-blocking; if empty return false (`none`), otherwise
remove and return the front element (FIFO steal). -/
def try_steal (d : ThreadSafeDeque α) : Option α × ThreadSafeDeque α :=
  match d.deque_ with
  | [] => (none, d)
  | x :: rest => (some x, { d with deque_ := rest })

/-- The wait predicate of `wait_and_pop`:
`cv_not_empty_.wait(lock, [this]{ return done_ || !deque_.empty(); })`. -/
def waitAndPopResolved (d : ThreadSafeDeque α) : Prop :=
  d.done_ = true ∨ d.deque_ ≠ []

instance (d : ThreadSafeDeque α) : Decidable (waitAndPopResolved d) :=
  decidable_of_iff (d.done_ = true ∨ d.deque_.isEmpty = false)
    (by unfold waitAndPopResolved; simp [List.isEmpty_iff])

/-- Body of `wait_and_pop` after its wait resolves: if closed and empty
return false (`none`); otherwise pop the back element. The final `none`
branch (open and empty) is unreachable once the wait has resolved and
stands for the still-blocked call. -/
def wait_and_pop (d : ThreadSafeDeque α) : Option α × ThreadSafeDeque α :=
  if d.done_ && d.deque_.isEmpty then (none, d)
  else
    match d.deque_.getLast? with
    | none => (none, d)
    | some x => (some x, { d with deque_ := d.deque_.dropLast })

/-- `close`: set `done_ = true` and wake all waiters (the notifications
carry no abstract-state content). -/
def close (d : ThreadSafeDeque α) : ThreadSafeDeque α :=
  { d with done_ := true }

end ThreadSafeDeque

open ThreadSafeDeque

/-- One serialized deque operation. Each member function of
`ThreadSafeDeque` holds the single mutex `mut_` for its whole body, so any
concurrent history of calls on one deque is a serial list of these. -/
inductive DequeOp (α : Type) where
  | push (value : α)
  | try_pop
  | try_steal
  | wait_and_pop
  | close
  deriving Repr, DecidableEq

/-- Apply one serialized operation; the first component is the element the
operation removed and handed to its caller (if any). -/
def applyOp (op : DequeOp α) (d : ThreadSafeDeque α) :
    Option α × ThreadSafeDeque α :=
  match op with
  | DequeOp.push v => (none, ThreadSafeDeque.push v d)
  | DequeOp.try_pop => ThreadSafeDeque.try_pop d
  | DequeOp.try_steal => ThreadSafeDeque.try_steal d
  | DequeOp.wait_and_pop => ThreadSafeDeque.wait_and_pop d
  | DequeOp.close => (none, ThreadSafeDeque.close d)

/-- Run a serialized history of operations on one deque, collecting every
element removed and returned to a caller (in history order). -/
def runTrace (ops : List (DequeOp α)) (d : ThreadSafeDeque α) :
    List α × ThreadSafeDeque α :=
  match ops with
  | [] => ([], d)
  | op :: rest =>
    let r := applyOp op d
    let rr := runTrace rest r.2
    (r.1.toList ++ rr.1, rr.2)

/-- The values the pushes of a history carry (whether or not stored). -/
def pushedValues : List (DequeOp α) → List α
  | [] => []
  | DequeOp.push v :: rest => v :: pushedValues rest
  | _ :: rest => pushedValues rest

/-- Shallow embedding of `ThreadPool` (thread_pool.hpp): the stop source,
the per-worker queues and the worker count. The `jthread` handles, the
Mersenne-Twister state `mt` and its mutex `rand_mut` are kept outside the
state: random draws enter the model as oracle indices (every value
`get_random()` can return lies in `[0, thread_count)`, the support of
`uniform_int_distribution<int>(0, thread_count - 1)`). -/
structure ThreadPool (α : Type) where
  stop_requested : Bool
  work_queues : List (ThreadSafeDeque α)
  thread_count : Nat
  deriving Repr, DecidableEq

/-- `ThreadPool::ThreadPool()`: `thread_count = max(1, hardware_concurrency)`,
then `make_unique<Queue[]>(thread_count)` default-constructs every deque
(`ThreadSafeDeque(size_t max_size = 50)`), and the workers start. The
constructor takes no arguments; `hardware_concurrency` is the environment's
core count, not a caller parameter. -/
def mkThreadPool (α : Type) (hardware_concurrency : Nat) : ThreadPool α :=
  let n := max 1 hardware_concurrency
  { stop_requested := false
    work_queues := List.replicate n (ThreadSafeDeque.mkDeque α 50)
    thread_count := n }

/-- `ThreadPool::stop_workers()`: close every queue. -/
def stop_workers (qs : List (ThreadSafeDeque α)) : List (ThreadSafeDeque α) :=
  qs.map ThreadSafeDeque.close

/-- The body of `ThreadPool::~ThreadPool()`: `stop_source_.request_stop()`
then `stop_workers()`. After this the `jthread` members are destroyed,
which joins every worker. -/
def destructorSignal (p : ThreadPool α) : ThreadPool α :=
  { p with stop_requested := true, work_queues := stop_workers p.work_queues }

/-- Outcome of one iteration of `ThreadPool::worker`. -/
inductive IterOutcome (α : Type) where
  | exitStop
  | popped (t : α)
  | stolen (j : Nat) (t : α)
  | waited (t : α)
  | exitClosed
  | blockedEmpty
  deriving Repr, DecidableEq

/-- One iteration of `ThreadPool::worker(token, idx)`, at the granularity
of its three deque operations: `own1` is the state of `work_queues[idx]`
when `try_pop` acquires its lock, `peerj` the state of `work_queues[j]`
(with `j = get_random()`) when `try_steal` acquires its lock, and `own2`
the state of `work_queues[idx]` when `wait_and_pop` acquires its lock
(other threads may run between the three acquisitions).
`exitStop` is the loop condition `!token.stop_requested()` failing at the
top; `exitClosed` is `wait_and_pop` returning false (`break`);
`blockedEmpty` stands for a `wait_and_pop` whose wait has not resolved. -/
def workerIter (stop : Bool) (own1 : ThreadSafeDeque α) (j : Nat)
    (peerj : ThreadSafeDeque α) (own2 : ThreadSafeDeque α) : IterOutcome α :=
  if stop then IterOutcome.exitStop
  else
    match (ThreadSafeDeque.try_pop own1).1 with
    | some t => IterOutcome.popped t
    | none =>
      match (ThreadSafeDeque.try_steal peerj).1 with
      | some t => IterOutcome.stolen j t
      | none =>
        if own2.done_ && own2.deque_.isEmpty then IterOutcome.exitClosed
        else
          match (ThreadSafeDeque.wait_and_pop own2).1 with
          | some t => IterOutcome.waited t
          | none => IterOutcome.blockedEmpty

/-- Result of running a worker in the sequential (no-interference) view:
the tasks it executed, the queues it left, and whether its loop exited. -/
inductive StepResult (α : Type) where
  | exited
  | ran (t : α)
  | blocked
  deriving Repr, DecidableEq

/-- One iteration of `ThreadPool::worker(token, idx)` in the sequential
view (no other thread runs inside the iteration): `rand` is the oracle
value of `get_random()`. Mirrors the loop body: check the stop token at
the top, `try_pop` own queue, `try_steal` queue `rand`, then
`wait_and_pop` own queue, `break` when it returns false. -/
def workerStep (stop : Bool) (idx rand : Nat)
    (qs : List (ThreadSafeDeque α)) :
    StepResult α × List (ThreadSafeDeque α) :=
  if stop then (StepResult.exited, qs)
  else
    let dq := qs.getD idx (ThreadSafeDeque.mkDeque α 50)
    match ThreadSafeDeque.try_pop dq with
    | (some t, dq2) => (StepResult.ran t, qs.set idx dq2)
    | (none, _) =>
      let sq := qs.getD rand (ThreadSafeDeque.mkDeque α 50)
      match ThreadSafeDeque.try_steal sq with
      | (some t, sq2) => (StepResult.ran t, qs.set rand sq2)
      | (none, _) =>
        if dq.done_ && dq.deque_.isEmpty then (StepResult.exited, qs)
        else
          match ThreadSafeDeque.wait_and_pop dq with
          | (some t, dq2) => (StepResult.ran t, qs.set idx dq2)
          | (none, _) => (StepResult.blocked, qs)

/-- Run a worker's loop in the sequential view, with fuel bounding the
number of iterations: returns the tasks it executed (in order), the final
queues, and whether the loop exited within the fuel. `rands` supplies the
oracle values of successive `get_random()` draws. -/
def workerRun (fuel : Nat) (stop : Bool) (idx : Nat) (rands : List Nat)
    (qs : List (ThreadSafeDeque α)) :
    List α × List (ThreadSafeDeque α) × Bool :=
  match fuel with
  | 0 => ([], qs, false)
  | Nat.succ fuel2 =>
    match workerStep stop idx (rands.headD 0) qs with
    | (StepResult.exited, qs2) => ([], qs2, true)
    | (StepResult.blocked, qs2) => ([], qs2, false)
    | (StepResult.ran t, qs2) =>
      let r := workerRun fuel2 stop idx (rands.tail) qs2
      (t :: r.1, r.2.1, r.2.2)

/-- `ThreadPool::submit(func)`: push onto queue `get_random()`; the draw is
the oracle index `i`. Models the post-wait body of the inner `push`. -/
def submit (i : Nat) (func : α) (p : ThreadPool α) : ThreadPool α :=
  { p with
    work_queues :=
      p.work_queues.set i
        (ThreadSafeDeque.push func
          (p.work_queues.getD i (ThreadSafeDeque.mkDeque α 50))) }

/-- `try_pop` always returns the back (`getLast?`) element of the stored
sequence (or `none` when empty). -/
theorem try_pop_fst (d : ThreadSafeDeque α) :
    (try_pop d).1 = d.deque_.getLast? := by
  cases h : d.deque_.getLast? <;> simp [ThreadSafeDeque.try_pop, h]

/-- `try_steal` always returns the front (`head?`) element of the stored
sequence (or `none` when empty). -/
theorem try_steal_fst (d : ThreadSafeDeque α) :
    (try_steal d).1 = d.deque_.head? := by
  cases h : d.deque_ <;> simp [ThreadSafeDeque.try_steal, h]

/-- C2: pushing A, B, C in that order into an empty open deque of
capacity ≥ 3 never blocks (each push's wait predicate already holds), and
then three successive `try_pop` calls return C, B, A while, on the freshly
filled deque, three successive `try_steal` calls return A, B, C. -/
theorem lifo_then_steal_ordering (α : Type) (a b c : α) (cap : Nat)
    (hcap : 3 ≤ cap) :
    pushWaitResolved (mkDeque α cap) ∧
    pushWaitResolved (push a (mkDeque α cap)) ∧
    pushWaitResolved (push b (push a (mkDeque α cap))) ∧
    (try_pop (push c (push b (push a (mkDeque α cap))))).1 = some c ∧
    (try_pop (try_pop (push c (push b (push a (mkDeque α cap))))).2).1
      = some b ∧
    (try_pop (try_pop
      (try_pop (push c (push b (push a (mkDeque α cap))))).2).2).1
      = some a ∧
    (try_steal (push c (push b (push a (mkDeque α cap))))).1 = some a ∧
    (try_steal (try_steal (push c (push b (push a (mkDeque α cap))))).2).1
      = some b ∧
    (try_steal (try_steal
      (try_steal (push c (push b (push a (mkDeque α cap))))).2).2).1
      = some c := by
  refine ⟨?_, ?_, ?_, ?_, ?_, ?_, ?_, ?_, ?_⟩ <;>
    simp [ThreadSafeDeque.mkDeque, ThreadSafeDeque.push,
      ThreadSafeDeque.try_pop, ThreadSafeDeque.try_steal,
      ThreadSafeDeque.pushWaitResolved] <;> omega

/-- Witness for C2 at capacity 50 (the default) and tasks 1, 2, 3. -/
theorem lifo_then_steal_ordering_witness :
    (try_pop (push 3 (push 2 (push 1 (mkDeque Nat 50))))).1 = some 3 ∧
    (try_steal (push 3 (push 2 (push 1 (mkDeque Nat 50))))).1 = some 1 :=
  ⟨(lifo_then_steal_ordering Nat 1 2 3 50 (by decide)).2.2.2.1,
   (lifo_then_steal_ordering Nat 1 2 3 50 (by decide)).2.2.2.2.2.2.1⟩

/-- C8: `close` is idempotent — a second (or n-th) call leaves the deque
in the state one call produces; its whole effect is setting the closed
flag, leaving the stored sequence and the capacity untouched; it is total
(never fails). -/
theorem close_idempotent (α : Type) (d : ThreadSafeDeque α) :
    close (close d) = close d ∧
    (close d).done_ = true ∧
    (close d).deque_ = d.deque_ ∧
    (close d).max_size_ = d.max_size_ ∧
    ∀ n : Nat, close^[n + 1] d = close d := by
  refine ⟨rfl, rfl, rfl, rfl, ?_⟩
  intro n
  induction n with
  | zero => rfl
  | succ k ih =>
    rw [Function.iterate_succ_apply', ih]
    rfl

/-- C10: `close` does not discard or alter the stored tasks, and
`try_pop` / `try_steal` ignore the closed flag: on the closed deque they
return the same element and leave the same stored sequence as on the open
one, and on a closed non-empty deque they still remove and return the
back, resp. front, element. -/
theorem close_preserves_pending_work (α : Type) (d : ThreadSafeDeque α) :
    (close d).deque_ = d.deque_ ∧
    (try_pop (close d)).1 = (try_pop d).1 ∧
    ((try_pop (close d)).2).deque_ = ((try_pop d).2).deque_ ∧
    (try_steal (close d)).1 = (try_steal d).1 ∧
    ((try_steal (close d)).2).deque_ = ((try_steal d).2).deque_ ∧
    (d.deque_ ≠ [] →
      (try_pop (close d)).1 = d.deque_.getLast? ∧
      (try_steal (close d)).1 = d.deque_.head?) := by
  refine ⟨rfl, ?_, ?_, ?_, ?_, ?_⟩
  · cases h : d.deque_.getLast? <;>
      simp [ThreadSafeDeque.try_pop, ThreadSafeDeque.close, h]
  · cases h : d.deque_.getLast? <;>
      simp [ThreadSafeDeque.try_pop, ThreadSafeDeque.close, h]
  · cases h : d.deque_ <;>
      simp [ThreadSafeDeque.try_steal, ThreadSafeDeque.close, h]
  · cases h : d.deque_ <;>
      simp [ThreadSafeDeque.try_steal, ThreadSafeDeque.close, h]
  · intro hne
    exact ⟨try_pop_fst (close d), try_steal_fst (close d)⟩

/-- Witness for C10 on the closed two-element deque [1, 2]. -/
theorem close_preserves_pending_work_witness :
    (try_pop (close (⟨[1, 2], 50, false⟩ : ThreadSafeDeque Nat))).1
      = ([1, 2] : List Nat).getLast? ∧
    (try_steal (close (⟨[1, 2], 50, false⟩ : ThreadSafeDeque Nat))).1
      = ([1, 2] : List Nat).head? :=
  (close_preserves_pending_work Nat ⟨[1, 2], 50, false⟩).2.2.2.2.2
    (by decide)

/-- C9: `ThreadPool::ThreadPool()` takes no configuration arguments (the
only datum it consumes is the environment's hardware concurrency); every
deque it creates is default-constructed, hence empty, open and of
capacity 50; it creates `max 1 hardware_concurrency` of them, one per
worker, and starts with the stop signal clear. -/
theorem pool_default_capacity_50 (α : Type) (hc : Nat) :
    ((mkThreadPool α hc).work_queues.all
      fun q => q.max_size_ == 50 && q.deque_.isEmpty && !q.done_) = true ∧
    (mkThreadPool α hc).thread_count = max 1 hc ∧
    (mkThreadPool α hc).work_queues.length
      = (mkThreadPool α hc).thread_count ∧
    (mkThreadPool α hc).stop_requested = false := by
  refine ⟨?_, rfl, ?_, rfl⟩
  · simp [mkThreadPool, ThreadSafeDeque.mkDeque, List.all_eq_true,
      List.mem_replicate]
  · simp [mkThreadPool]

/-- C3: for any deque whose stored sequence respects the capacity,
`push` is blocked exactly while the deque holds `max_size_` tasks and is
not closed (the negation of its condition-variable predicate); if the
deque is closed when the wait resolves, `push` returns with the stored
sequence unchanged (the moved-from task value is lost, no error is
reported); otherwise it appends the task at the back, changing nothing
else. -/
theorem push_contract (α : Type) (v : α) (d : ThreadSafeDeque α)
    (hcap : d.deque_.length ≤ d.max_size_) :
    (¬ pushWaitResolved d ↔
      (d.deque_.length = d.max_size_ ∧ d.done_ = false)) ∧
    (d.done_ = true → push v d = d) ∧
    (d.done_ = false →
      (push v d).deque_ = d.deque_ ++ [v] ∧
      (push v d).done_ = false ∧
      (push v d).max_size_ = d.max_size_) := by
  refine ⟨?_, ?_, ?_⟩
  · unfold ThreadSafeDeque.pushWaitResolved
    cases hd : d.done_ <;> simp
    omega
  · intro h; simp [ThreadSafeDeque.push, h]
  · intro h; simp [ThreadSafeDeque.push, h]

/-- Witness for C3 on a full open deque of capacity 1 and a closed one. -/
theorem push_contract_witness :
    (¬ pushWaitResolved (⟨[9], 1, false⟩ : ThreadSafeDeque Nat)) ∧
    push 5 (⟨[9], 1, true⟩ : ThreadSafeDeque Nat) = ⟨[9], 1, true⟩ ∧
    (push 5 (⟨[9], 2, false⟩ : ThreadSafeDeque Nat)).deque_ = [9] ++ [5] :=
  ⟨(push_contract Nat 5 ⟨[9], 1, false⟩ (by decide)).1.mpr ⟨rfl, rfl⟩,
   (push_contract Nat 5 ⟨[9], 1, true⟩ (by decide)).2.1 rfl,
   ((push_contract Nat 5 ⟨[9], 2, false⟩ (by decide)).2.2 rfl).1⟩

/-- C4: once its wait has resolved (deque non-empty or closed),
`wait_and_pop` returns `none` exactly when the deque is closed and empty;
otherwise it removes and returns the back (most recently pushed) element
— the very same result and state `try_pop` would produce. -/
theorem wait_and_pop_contract (α : Type) (d : ThreadSafeDeque α)
    (hres : waitAndPopResolved d) :
    ((wait_and_pop d).1 = none ↔ (d.done_ = true ∧ d.deque_ = [])) ∧
    (d.deque_ ≠ [] →
      wait_and_pop d = try_pop d ∧
      (wait_and_pop d).1 = d.deque_.getLast? ∧
      ((wait_and_pop d).2).deque_ = d.deque_.dropLast) := by
  rcases d with ⟨l, m, dn⟩
  cases l with
  | nil =>
    have hd : dn = true := by
      rcases hres with h | h
      · exact h
      · simp at h
    subst hd
    constructor
    · simp [ThreadSafeDeque.wait_and_pop]
    · intro h; simp at h
  | cons x rest =>
    have hy : ∃ y, (x :: rest).getLast? = some y :=
      Option.isSome_iff_exists.mp (List.getLast?_isSome.mpr (by simp))
    rcases hy with ⟨y, hy⟩
    constructor
    · simp [ThreadSafeDeque.wait_and_pop, hy]
    · intro _
      refine ⟨?_, ?_, ?_⟩ <;>
        simp [ThreadSafeDeque.wait_and_pop, ThreadSafeDeque.try_pop, hy]

/-- Witness for C4 on a closed empty deque and an open one-element deque. -/
theorem wait_and_pop_contract_witness :
    (wait_and_pop (⟨[], 50, true⟩ : ThreadSafeDeque Nat)).1 = none ∧
    (wait_and_pop (⟨[4], 50, false⟩ : ThreadSafeDeque Nat)).1 = some 4 :=
  ⟨(wait_and_pop_contract Nat ⟨[], 50, true⟩ (Or.inl rfl)).1.mpr
      ⟨rfl, rfl⟩,
   by
    have h := (wait_and_pop_contract Nat ⟨[4], 50, false⟩
      (Or.inr (by decide))).2 (by decide)
    rw [h.2.1]; rfl⟩

/-- Every serialized operation leaves the capacity fixed at construction
unchanged. -/
theorem applyOp_max_size (op : DequeOp α) (d : ThreadSafeDeque α) :
    (applyOp op d).2.max_size_ = d.max_size_ := by
  cases op with
  | push v => by_cases h : d.done_ = true <;> simp [applyOp, ThreadSafeDeque.push, h]
  | try_pop => cases h : d.deque_.getLast? <;> simp [applyOp, ThreadSafeDeque.try_pop, h]
  | try_steal => cases h : d.deque_ <;> simp [applyOp, ThreadSafeDeque.try_steal, h]
  | wait_and_pop =>
    by_cases hc : (d.done_ && d.deque_.isEmpty) = true <;>
      cases h : d.deque_.getLast? <;>
      simp [applyOp, ThreadSafeDeque.wait_and_pop, hc, h]
  | close => rfl

/-- Every serialized operation leaves a closed deque closed (the closed
flag never reverts). -/
theorem applyOp_done_mono (op : DequeOp α) (d : ThreadSafeDeque α)
    (hd : d.done_ = true) : (applyOp op d).2.done_ = true := by
  cases op with
  | push v => simp [applyOp, ThreadSafeDeque.push, hd]
  | try_pop => cases h : d.deque_.getLast? <;> simp [applyOp, ThreadSafeDeque.try_pop, h, hd]
  | try_steal => cases h : d.deque_ <;> simp [applyOp, ThreadSafeDeque.try_steal, h, hd]
  | wait_and_pop =>
    simp only [applyOp, ThreadSafeDeque.wait_and_pop]
    split
    · exact hd
    · split <;> simp [hd]
  | close => rfl

/-- On a closed deque, no serialized operation ever adds a task: the
stored sequence afterwards is a sublist of the one before. -/
theorem applyOp_sublist_of_done (op : DequeOp α) (d : ThreadSafeDeque α)
    (hd : d.done_ = true) : (applyOp op d).2.deque_.Sublist d.deque_ := by
  cases op with
  | push v => simp [applyOp, ThreadSafeDeque.push, hd]
  | try_pop =>
    cases h : d.deque_.getLast? <;> simp [applyOp, ThreadSafeDeque.try_pop, h]
    exact List.dropLast_sublist d.deque_
  | try_steal =>
    cases h : d.deque_ <;> simp [applyOp, ThreadSafeDeque.try_steal, h]
  | wait_and_pop =>
    by_cases hc : (d.done_ && d.deque_.isEmpty) = true <;>
      cases h : d.deque_.getLast? <;>
      simp [applyOp, ThreadSafeDeque.wait_and_pop, hc, h]
    exact List.dropLast_sublist d.deque_
  | close => simp [applyOp, ThreadSafeDeque.close]

/-- Every serialized operation keeps the stored sequence within the
capacity; for `push`, because its wait only resolves with a free slot or
a closed deque. -/
theorem applyOp_length_le (op : DequeOp α) (d : ThreadSafeDeque α)
    (hcap : d.deque_.length ≤ d.max_size_)
    (hpush : ∀ v, op = DequeOp.push v → pushWaitResolved d) :
    (applyOp op d).2.deque_.length ≤ (applyOp op d).2.max_size_ := by
  rw [applyOp_max_size]
  cases op with
  | push v =>
    by_cases h : d.done_ = true
    · simp [applyOp, ThreadSafeDeque.push, h, hcap]
    · have hw := hpush v rfl
      rw [ThreadSafeDeque.pushWaitResolved] at hw
      rcases hw with hw | hw
      · exact absurd hw h
      · simp [applyOp, ThreadSafeDeque.push, Bool.of_not_eq_true h]
        omega
  | try_pop =>
    cases h : d.deque_.getLast? <;> simp [applyOp, ThreadSafeDeque.try_pop, h]
    · exact hcap
    · have := d.deque_.length_dropLast
      omega
  | try_steal =>
    cases h : d.deque_ with
    | nil => simp [applyOp, ThreadSafeDeque.try_steal, h]
    | cons x rest =>
      rw [h] at hcap
      simp [applyOp, ThreadSafeDeque.try_steal, h]
      simp at hcap
      omega
  | wait_and_pop =>
    by_cases hc : (d.done_ && d.deque_.isEmpty) = true
    · simpa [applyOp, ThreadSafeDeque.wait_and_pop, hc] using hcap
    · cases h : d.deque_.getLast? with
      | none => simpa [applyOp, ThreadSafeDeque.wait_and_pop, hc, h] using hcap
      | some y =>
        simp [applyOp, ThreadSafeDeque.wait_and_pop, hc, h]
        have := d.deque_.length_dropLast
        omega
  | close => simpa [applyOp, ThreadSafeDeque.close] using hcap

/-- C5: every serialized deque operation preserves the invariants: the
capacity is the one fixed at construction, the stored sequence never
exceeds it (for `push`, because its wait only resolves with a free slot
or a closed deque), the closed flag never reverts to open, and once the
deque is closed no operation ever adds a task — the stored sequence after
the operation is a sublist of the one before. -/
theorem deque_invariants (α : Type) (op : DequeOp α) (d : ThreadSafeDeque α)
    (hcap : d.deque_.length ≤ d.max_size_)
    (hpush : ∀ v, op = DequeOp.push v → pushWaitResolved d) :
    ((applyOp op d).2.max_size_ = d.max_size_) ∧
    ((applyOp op d).2.deque_.length ≤ (applyOp op d).2.max_size_) ∧
    (d.done_ = true → (applyOp op d).2.done_ = true) ∧
    (d.done_ = true → (applyOp op d).2.deque_.Sublist d.deque_) :=
  ⟨applyOp_max_size op d, applyOp_length_le op d hcap hpush,
   applyOp_done_mono op d, applyOp_sublist_of_done op d⟩

/-- Witness for C5: `try_pop` on a closed one-element deque. -/
theorem deque_invariants_witness :
    ((applyOp DequeOp.try_pop
      (⟨[3], 50, true⟩ : ThreadSafeDeque Nat)).2).deque_.Sublist [3] :=
  (deque_invariants Nat DequeOp.try_pop ⟨[3], 50, true⟩ (by decide)
    (fun v h => nomatch h)).2.2.2 rfl

/-- C6: one iteration of `ThreadPool::worker` proceeds in the claimed
order. With `own1`, `peerj`, `own2` the deque states the iteration's three
deque operations observe (`j` the oracle value of `get_random()`, drawn
from `uniform_int_distribution(0, thread_count - 1)`, so any index in
`[0, thread_count)` including `idx` itself): if the stop token is set at
loop top the worker exits; else a non-empty own deque yields its back
element via `try_pop`; else a non-empty deque `j` yields its front element
via `try_steal`; else the worker is in `wait_and_pop` on its own deque and
exits exactly when that yields nothing, i.e. exactly when deque `idx` is
closed and empty. -/
theorem worker_iteration_contract (α : Type) (stop : Bool)
    (own1 : ThreadSafeDeque α) (j : Nat) (peerj own2 : ThreadSafeDeque α) :
    (stop = true →
      workerIter stop own1 j peerj own2 = IterOutcome.exitStop) ∧
    (stop = false → ∀ t, own1.deque_.getLast? = some t →
      workerIter stop own1 j peerj own2 = IterOutcome.popped t) ∧
    (stop = false → own1.deque_ = [] → ∀ t rest, peerj.deque_ = t :: rest →
      workerIter stop own1 j peerj own2 = IterOutcome.stolen j t) ∧
    (stop = false → own1.deque_ = [] → peerj.deque_ = [] →
      (workerIter stop own1 j peerj own2 = IterOutcome.exitClosed ↔
        (own2.done_ = true ∧ own2.deque_ = []))) ∧
    (stop = false → own1.deque_ = [] → peerj.deque_ = [] →
      ∀ t, own2.deque_.getLast? = some t →
      workerIter stop own1 j peerj own2 = IterOutcome.waited t) := by
  refine ⟨?_, ?_, ?_, ?_, ?_⟩
  · intro h; simp [workerIter, h]
  · intro h t ht
    simp [workerIter, h, ThreadSafeDeque.try_pop, ht]
  · intro h h1 t rest hp
    simp [workerIter, h, ThreadSafeDeque.try_pop, ThreadSafeDeque.try_steal,
      h1, hp]
  · intro h h1 hp
    by_cases hd : (own2.done_ && own2.deque_.isEmpty) = true
    · have hd2 := hd
      rw [Bool.and_eq_true] at hd2
      simp [workerIter, h, ThreadSafeDeque.try_pop, ThreadSafeDeque.try_steal,
        h1, hp, hd]
      exact ⟨hd2.1, List.isEmpty_iff.mp hd2.2⟩
    · rw [Bool.not_eq_true] at hd
      cases hg : own2.deque_.getLast? with
      | none =>
        simp [workerIter, h, ThreadSafeDeque.try_pop,
          ThreadSafeDeque.try_steal, ThreadSafeDeque.wait_and_pop,
          h1, hp, hd, hg]
        intro h1' h2'
        rw [h1', List.isEmpty_iff.mpr h2'] at hd
        simp at hd
      | some t =>
        simp [workerIter, h, ThreadSafeDeque.try_pop,
          ThreadSafeDeque.try_steal, ThreadSafeDeque.wait_and_pop,
          h1, hp, hd, hg]
        intro h1' h2'
        rw [h1', List.isEmpty_iff.mpr h2'] at hd
        simp at hd
  · intro h h1 hp t ht
    have hd : (own2.done_ && own2.deque_.isEmpty) = false := by
      have : own2.deque_ ≠ [] := by
        intro he
        rw [he] at ht
        simp at ht
      simp [List.isEmpty_iff, this]
    simp [workerIter, h, ThreadSafeDeque.try_pop, ThreadSafeDeque.try_steal,
      ThreadSafeDeque.wait_and_pop, h1, hp, hd, ht]

/-- Witness for C6: a stopped worker exits; an unstopped worker with a
local task pops it. -/
theorem worker_iteration_contract_witness :
    workerIter true (mkDeque Nat 50) 0 (mkDeque Nat 50) (mkDeque Nat 50)
      = IterOutcome.exitStop ∧
    workerIter false (⟨[7], 50, false⟩ : ThreadSafeDeque Nat) 1
      (mkDeque Nat 50) (mkDeque Nat 50) = IterOutcome.popped 7 :=
  ⟨(worker_iteration_contract Nat true (mkDeque Nat 50) 0 (mkDeque Nat 50)
      (mkDeque Nat 50)).1 rfl,
   (worker_iteration_contract Nat false ⟨[7], 50, false⟩ 1 (mkDeque Nat 50)
      (mkDeque Nat 50)).2.1 rfl 7 rfl⟩

/-- For a non-empty list, the multiplicity of any value splits into its
multiplicity in `dropLast` and in the last element. -/
theorem count_dropLast_getLast {α : Type} [DecidableEq α] (l : List α)
    (y : α) (h : l.getLast? = some y) (x : α) :
    l.dropLast.count x + [y].count x = l.count x := by
  induction l using List.reverseRecOn with
  | nil => simp at h
  | append_singleton l2 a ih =>
    rw [List.getLast?_concat] at h
    cases h
    simp [List.dropLast_concat, List.count_append]

/-- The cons equation of `pushedValues`, as an append. -/
theorem pushedValues_cons (op : DequeOp α) (rest : List (DequeOp α)) :
    pushedValues (op :: rest) = pushedValues [op] ++ pushedValues rest := by
  cases op <;> simp [pushedValues]

/-- One serialized operation hands out each value at most as often as the
deque holds it plus as often as the operation pushes it. -/
theorem applyOp_count {α : Type} [DecidableEq α] (op : DequeOp α)
    (d : ThreadSafeDeque α) (x : α) :
    (applyOp op d).1.toList.count x + (applyOp op d).2.deque_.count x
      ≤ d.deque_.count x + (pushedValues [op]).count x := by
  cases op with
  | push v =>
    by_cases h : d.done_ = true <;>
      simp [applyOp, ThreadSafeDeque.push, pushedValues, h,
        List.count_append]
  | try_pop =>
    cases hy : d.deque_.getLast? with
    | none => simp [applyOp, ThreadSafeDeque.try_pop, hy, pushedValues]
    | some y =>
      have hc := count_dropLast_getLast d.deque_ y hy x
      simp [applyOp, ThreadSafeDeque.try_pop, hy, pushedValues]
      simp at hc
      omega
  | try_steal =>
    cases hl : d.deque_ with
    | nil => simp [applyOp, ThreadSafeDeque.try_steal, hl, pushedValues]
    | cons t rest =>
      simp [applyOp, ThreadSafeDeque.try_steal, hl, pushedValues,
        List.count_cons]
      omega
  | wait_and_pop =>
    by_cases hc : (d.done_ && d.deque_.isEmpty) = true
    · simp [applyOp, ThreadSafeDeque.wait_and_pop, hc, pushedValues]
    · cases hy : d.deque_.getLast? with
      | none => simp [applyOp, ThreadSafeDeque.wait_and_pop, hc, hy, pushedValues]
      | some y =>
        have hcd := count_dropLast_getLast d.deque_ y hy x
        simp [applyOp, ThreadSafeDeque.wait_and_pop, hc, hy, pushedValues]
        simp at hcd
        omega
  | close => simp [applyOp, ThreadSafeDeque.close, pushedValues]

/-- Conservation over a serialized history: each value is handed out to
callers at most as often as it was initially stored plus pushed. -/
theorem runTrace_count {α : Type} [DecidableEq α] (ops : List (DequeOp α))
    (d : ThreadSafeDeque α) (x : α) :
    (runTrace ops d).1.count x + (runTrace ops d).2.deque_.count x
      ≤ d.deque_.count x + (pushedValues ops).count x := by
  induction ops generalizing d with
  | nil => simp [runTrace, pushedValues]
  | cons op rest ih =>
    have h1 := applyOp_count op d x
    have h2 := ih (applyOp op d).2
    rw [pushedValues_cons, List.count_append]
    simp only [runTrace, List.count_append]
    omega

/-- C7: in any serialized history of operations on a deque (every deque
member function runs under the one mutex `mut_`, so every concurrent
history linearizes to such a serial one), a task present at most once —
counting its initial occurrences and its pushes together — is removed and
handed to a caller by at most one pop/steal operation, hence executed at
most once. -/
theorem at_most_once_execution (α : Type) [DecidableEq α]
    (ops : List (DequeOp α)) (d : ThreadSafeDeque α) (x : α)
    (honce : d.deque_.count x + (pushedValues ops).count x ≤ 1) :
    (runTrace ops d).1.count x ≤ 1 := by
  have h := runTrace_count ops d x
  omega

/-- Witness for C7: one push of task 5 followed by the three pop variants
hands out task 5 exactly once. -/
theorem at_most_once_execution_witness :
    (runTrace [DequeOp.push 5, DequeOp.try_pop, DequeOp.try_steal,
      DequeOp.wait_and_pop] (mkDeque Nat 50)).1.count 5 ≤ 1 :=
  at_most_once_execution Nat
    [DequeOp.push 5, DequeOp.try_pop, DequeOp.try_steal,
      DequeOp.wait_and_pop] (mkDeque Nat 50) 5 (by decide)

/-- C1 (failing input): a pool of one worker whose deque still holds one
queued task when the destructor runs. The destructor body raises the stop
signal and closes the queue with the task still stored; the worker's next
loop-top check `!token.stop_requested()` then fails, so the worker exits
having executed nothing, the join completes, and the destructor returns
with the task never executed — the loop drains nothing once the stop
token is set, contradicting the claim (and the header's own description
"all pending tasks executed before thread join"). -/
theorem teardown_drops_queued_task :
    destructorSignal
      ({ stop_requested := false,
         work_queues := [⟨[0], 50, false⟩],
         thread_count := 1 } : ThreadPool Nat)
      = { stop_requested := true,
          work_queues := [⟨[0], 50, true⟩],
          thread_count := 1 } ∧
    workerRun 10 true 0 []
      ([⟨[0], 50, true⟩] : List (ThreadSafeDeque Nat))
      = ([], [⟨[0], 50, true⟩], true) :=
  ⟨rfl, rfl⟩
